import Mathlib

/-!
Verification of the singly-linked list in src/DataStructuresCpp/LinkedList.cpp.

The heap chain of nodes reachable from `head` is embedded as a `List Int`
(every state reachable by the operations keeps the chain acyclic, so the
value sequence determines the chain).  The `length` counter field of the
C++ class is embedded as an `Int`; the code lets it drift away from the
actual node count, so the embedding keeps it as a separate field.  A null
pointer dereference (undefined behavior in the C++) is embedded as `none`:
operations that may dereference an absent node return `Option LinkedList`.
Arithmetic on the `length` field only ever moves by one per operation and
every claim concerns small lists, so `int` overflow never matters here and
`length` is embedded as an unbounded `Int`.
-/

structure LinkedList where
  head : List Int
  length : Int
  deriving DecidableEq, Repr

/-- The constructor `LinkedList::LinkedList`: `length = 0`, `head = nullptr`. -/
def LinkedList.empty : LinkedList := ⟨[], 0⟩

/-- `LinkedList::InsertFront`: new node becomes the head, `length++`. -/
def LinkedList.InsertFront (l : LinkedList) (data : Int) : LinkedList :=
  ⟨data :: l.head, l.length + 1⟩

/-- The traversal loop of `LinkedList::InsertBack`: walk to the last node and
attach the new node; if `head == nullptr` the new node becomes the head. -/
def appendBack (data : Int) : List Int → List Int
  | [] => [data]
  | x :: xs => x :: appendBack data xs

/-- `LinkedList::InsertBack`: append at the end, `length++`. -/
def LinkedList.InsertBack (l : LinkedList) (data : Int) : LinkedList :=
  ⟨appendBack data l.head, l.length + 1⟩

/-- The non-front path of `LinkedList::InsertAt`: after the loop
`for (i = 0; i < index - 2; i++) current = current->next;` has run `n` times
starting at `current = head`, splice the new node in after `current`
(`node->next = current->next; current->next = node;`).  Each loop step and
the final splice dereference `current`, so the walk fails (`none`,
undefined behavior) as soon as the chain is exhausted. -/
def spliceInsert (data : Int) : Nat → List Int → Option (List Int)
  | _, [] => none
  | 0, x :: xs => some (x :: data :: xs)
  | n + 1, x :: xs => Option.map (fun t => x :: t) (spliceInsert data n xs)

/-- `LinkedList::InsertAt`: the `index == 1` path prepends and returns
without touching `length`; every other index runs the loop
`max 0 (index - 2)` times (the C++ `for` loop body does not execute for a
negative bound, hence `Int.toNat`) and increments `length`. -/
def LinkedList.InsertAt (l : LinkedList) (data index : Int) : Option LinkedList :=
  if index = 1 then some ⟨data :: l.head, l.length⟩
  else Option.map (fun c => ⟨c, l.length + 1⟩)
    (spliceInsert data (index - 2).toNat l.head)

/-- The non-front path of `LinkedList::Delete`: after walking `n` steps from
the head, unlink the successor of `current`
(`next = current->next; current->next = next->next; delete next;`).
Both `current` and `next` are dereferenced, so the chain must still hold at
least two nodes at the stopping point. -/
def deleteAfter : Nat → List Int → Option (List Int)
  | _, [] => none
  | 0, [_] => none
  | 0, x :: _ :: ys => some (x :: ys)
  | n + 1, x :: xs => Option.map (fun t => x :: t) (deleteAfter n xs)

/-- `LinkedList::Delete`: the `index == 1` path does `head = current->next`
(dereferencing the possibly-null head) and returns without touching
`length`; every other index walks `max 0 (index - 2)` steps, unlinks, and
decrements `length`. -/
def LinkedList.Delete (l : LinkedList) (index : Int) : Option LinkedList :=
  if index = 1 then
    match l.head with
    | [] => none
    | _ :: t => some ⟨t, l.length⟩
  else Option.map (fun c => ⟨c, l.length - 1⟩)
    (deleteAfter (index - 2).toNat l.head)

/-- The loop of `LinkedList::Reverse`: `previous` accumulates the already
re-pointed nodes, `current` walks the remaining chain. -/
def reverseLoop (previous : List Int) : List Int → List Int
  | [] => previous
  | x :: xs => reverseLoop (x :: previous) xs

/-- `LinkedList::Reverse`: in-place reversal; `length` is not touched. -/
def LinkedList.Reverse (l : LinkedList) : LinkedList :=
  ⟨reverseLoop [] l.head, l.length⟩

/-- `LinkedList::StartRecursionPrint`: emits the current value then recurses
on the successor; the emitted output is collected as a list. -/
def LinkedList.StartRecursionPrint : List Int → List Int
  | [] => []
  | x :: xs => x :: LinkedList.StartRecursionPrint xs

/-- `LinkedList::PrintRecursion`: starts the recursive traversal at the head.
The traversal only reads the chain; the structure is returned untouched. -/
def LinkedList.PrintRecursion (l : LinkedList) : List Int :=
  LinkedList.StartRecursionPrint l.head

/-- The `while (current)` loop of `LinkedList::Print`: `acc` is the output
emitted so far. -/
def printLoop (acc : List Int) : List Int → List Int
  | [] => acc
  | x :: xs => printLoop (acc ++ [x]) xs

/-- `LinkedList::Print`: iterative traversal from the head, read-only. -/
def LinkedList.Print (l : LinkedList) : List Int :=
  printLoop [] l.head

/-- `LinkedList::GetLength`: returns the `length` field. -/
def LinkedList.GetLength (l : LinkedList) : Int := l.length

/-- Written from the words of the spec, for comparison with `InsertAt`:
the sequence with `v` inserted so that it occupies 1-based position `i`. -/
def specInsertAt (v : Int) (i : Nat) (s : List Int) : List Int :=
  s.take (i - 1) ++ v :: s.drop (i - 1)

/-- Written from the words of the spec, for comparison with `Delete`:
the sequence with the element at 1-based position `i` removed. -/
def specDeleteAt (i : Nat) (s : List Int) : List Int :=
  s.take (i - 1) ++ s.drop i

/-! ### Helper lemmas about the loops -/

theorem printLoop_eq (l : List Int) : ∀ acc : List Int, printLoop acc l = acc ++ l := by
  induction l with
  | nil => intro acc; simp [printLoop]
  | cons x xs ih => intro acc; simp [printLoop, ih]

theorem startRecursionPrint_eq (l : List Int) : LinkedList.StartRecursionPrint l = l := by
  induction l with
  | nil => rfl
  | cons x xs ih => simp [LinkedList.StartRecursionPrint, ih]

theorem Print_eq (l : LinkedList) : l.Print = l.head := by
  simp [LinkedList.Print, printLoop_eq]

theorem reverseLoop_eq (l : List Int) : ∀ acc : List Int, reverseLoop acc l = l.reverse ++ acc := by
  induction l with
  | nil => intro acc; simp [reverseLoop]
  | cons x xs ih => intro acc; simp [reverseLoop, ih]

theorem appendBack_eq (d : Int) (l : List Int) : appendBack d l = l ++ [d] := by
  induction l with
  | nil => rfl
  | cons x xs ih => simp [appendBack, ih]

theorem spliceInsert_eq (d : Int) : ∀ (n : Nat) (l : List Int), n < l.length →
    spliceInsert d n l = some (l.take (n + 1) ++ d :: l.drop (n + 1))
  | 0, [], h => absurd h (by simp)
  | 0, _ :: _, _ => rfl
  | n + 1, [], h => absurd h (by simp)
  | n + 1, x :: xs, h => by
    have hx : n < xs.length := by simpa using h
    simp [spliceInsert, spliceInsert_eq d n xs hx]

theorem deleteAfter_eq : ∀ (n : Nat) (l : List Int), n + 1 < l.length →
    deleteAfter n l = some (l.take (n + 1) ++ l.drop (n + 2))
  | 0, [], h => absurd h (by simp)
  | 0, [_], h => absurd h (by simp)
  | 0, _ :: _ :: _, _ => rfl
  | n + 1, [], h => absurd h (by simp)
  | n + 1, x :: xs, h => by
    have hx : n + 1 < xs.length := by simpa using h
    simp [deleteAfter, deleteAfter_eq n xs hx]

/-! ### Claims -/

/-- C1: the claim says `GetLength()` always equals the number of elements
produced by a traversal after any sequence of valid operations from the
empty list.  The code violates it (the `index == 1` path of `InsertAt`
skips the `length` increment): after `InsertAt(5, 1)` on the empty list,
`GetLength` returns 0 while the traversal yields one element.  This
theorem evaluates the code at that failing input. -/
theorem C1_length_invariant_fails :
    LinkedList.InsertAt LinkedList.empty 5 1 = some ⟨[5], 0⟩ ∧
    LinkedList.GetLength ⟨[5], 0⟩ = 0 ∧
    (LinkedList.Print ⟨[5], 0⟩).length = 1 := by
  refine ⟨rfl, rfl, ?_⟩
  simp [LinkedList.Print, printLoop]

/-- C2: the claim says out-of-range `InsertAt` and `Delete` fail with an
`IndexOutOfRange` error and leave the list untouched.  The code has no
bounds check at all: `Delete(1)` on the empty list dereferences the null
head (undefined behavior, embedded as `none`, not a clean error), and
`InsertAt(9, 0)` on `[1,2,3]` (index 0 is outside `[1, length+1]`)
raises no error and silently mutates the list to `[1,9,2,3]` with
`length` bumped to 4.  This theorem evaluates the code at both inputs. -/
theorem C2_out_of_range_not_rejected :
    LinkedList.Delete LinkedList.empty 1 = none ∧
    LinkedList.InsertAt ⟨[1, 2, 3], 3⟩ 9 0 = some ⟨[1, 9, 2, 3], 4⟩ := by
  constructor
  · rfl
  · simp [LinkedList.InsertAt, spliceInsert]

/-- C3: on a list whose `length` field matches its node count,
`InsertAt(v, 1)` splices `v` in at the front but leaves the `length`
field unchanged, while `InsertAt(v, i)` for every valid `i` with
`2 <= i <= length + 1` succeeds and increments `length` by exactly one. -/
theorem C3_insertAt_length_paths (l : List Int) (v : Int) :
    LinkedList.InsertAt ⟨l, (l.length : Int)⟩ v 1 = some ⟨v :: l, (l.length : Int)⟩ ∧
    ∀ i : Int, 2 ≤ i → i ≤ (l.length : Int) + 1 →
      Option.map LinkedList.GetLength (LinkedList.InsertAt ⟨l, (l.length : Int)⟩ v i)
        = some ((l.length : Int) + 1) := by
  constructor
  · simp [LinkedList.InsertAt]
  · intro i h2 hle
    have hne : i ≠ 1 := by omega
    have hn : (i - 2).toNat < l.length := by omega
    simp [LinkedList.InsertAt, hne, spliceInsert_eq v _ l hn, LinkedList.GetLength]

/-- Witness for C3 at `l = [1,2,3]`, `v = 9`, `i = 2`. -/
theorem C3_insertAt_length_paths_witness :
    (2 ≤ (2 : Int)) ∧ ((2 : Int) ≤ (([1, 2, 3] : List Int).length : Int) + 1) ∧
    Option.map LinkedList.GetLength
        (LinkedList.InsertAt ⟨[1, 2, 3], (([1, 2, 3] : List Int).length : Int)⟩ 9 2)
      = some ((([1, 2, 3] : List Int).length : Int) + 1) :=
  ⟨by decide, by decide,
    (C3_insertAt_length_paths [1, 2, 3] 9).2 2 (by decide) (by decide)⟩

/-- C4: on a non-empty list whose `length` field matches its node count,
`Delete(1)` removes the first node but leaves the `length` field
unchanged, while `Delete(i)` for every valid `i` with `2 <= i <= length`
succeeds and decrements `length` by exactly one. -/
theorem C4_delete_length_paths (x : Int) (xs : List Int) :
    LinkedList.Delete ⟨x :: xs, ((x :: xs).length : Int)⟩ 1
      = some ⟨xs, ((x :: xs).length : Int)⟩ ∧
    ∀ i : Int, 2 ≤ i → i ≤ ((x :: xs).length : Int) →
      Option.map LinkedList.GetLength (LinkedList.Delete ⟨x :: xs, ((x :: xs).length : Int)⟩ i)
        = some (((x :: xs).length : Int) - 1) := by
  constructor
  · simp [LinkedList.Delete]
  · intro i h2 hle
    have hne : i ≠ 1 := by omega
    have hn : (i - 2).toNat + 1 < (x :: xs).length := by
      simp only [List.length_cons] at hle ⊢
      omega
    simp [LinkedList.Delete, hne, deleteAfter_eq _ _ hn, LinkedList.GetLength]

/-- Witness for C4 at the list `[1,9,2,3]`, `i = 2`. -/
theorem C4_delete_length_paths_witness :
    (2 ≤ (2 : Int)) ∧ ((2 : Int) ≤ (((1 : Int) :: [9, 2, 3]).length : Int)) ∧
    Option.map LinkedList.GetLength
        (LinkedList.Delete ⟨(1 : Int) :: [9, 2, 3], (((1 : Int) :: [9, 2, 3]).length : Int)⟩ 2)
      = some ((((1 : Int) :: [9, 2, 3]).length : Int) - 1) :=
  ⟨by decide, by decide,
    (C4_delete_length_paths 1 [9, 2, 3]).2 2 (by decide) (by decide)⟩

/-- C5: on a list whose traversal yields `l`, `InsertAt(v, i)` for every
valid `i` with `1 <= i <= length + 1` succeeds and the new traversal
yields `l` with `v` inserted at 1-based position `i`. -/
theorem C5_insertAt_traversal (l : List Int) (v : Int) (i : Int)
    (h1 : 1 ≤ i) (h2 : i ≤ (l.length : Int) + 1) :
    Option.map LinkedList.Print (LinkedList.InsertAt ⟨l, (l.length : Int)⟩ v i)
      = some (specInsertAt v i.toNat l) := by
  by_cases hi : i = 1
  · subst hi
    simp [LinkedList.InsertAt, LinkedList.Print, printLoop_eq, specInsertAt]
  · have h2i : 2 ≤ i := by omega
    have hn : (i - 2).toNat < l.length := by omega
    have hsucc : (i - 2).toNat + 1 = i.toNat - 1 := by omega
    simp [LinkedList.InsertAt, hi, spliceInsert_eq v _ l hn, LinkedList.Print,
      printLoop_eq, specInsertAt, hsucc]

/-- Witness for C5 at `l = [1,2,3]`, `v = 9`, `i = 2`: the traversal
becomes `[1,9,2,3]`, the example of the spec. -/
theorem C5_insertAt_traversal_witness :
    (1 ≤ (2 : Int)) ∧ ((2 : Int) ≤ (([1, 2, 3] : List Int).length : Int) + 1) ∧
    Option.map LinkedList.Print
        (LinkedList.InsertAt ⟨[1, 2, 3], (([1, 2, 3] : List Int).length : Int)⟩ 9 2)
      = some (specInsertAt 9 (2 : Int).toNat [1, 2, 3]) :=
  ⟨by decide, by decide, C5_insertAt_traversal [1, 2, 3] 9 2 (by decide) (by decide)⟩

/-- C6: on a non-empty list whose traversal yields the chain, `Delete(i)`
for every valid `i` with `1 <= i <= length` succeeds and the new
traversal yields the chain with the element at 1-based position `i`
removed. -/
theorem C6_delete_traversal (x : Int) (xs : List Int) (i : Int)
    (h1 : 1 ≤ i) (h2 : i ≤ ((x :: xs).length : Int)) :
    Option.map LinkedList.Print (LinkedList.Delete ⟨x :: xs, ((x :: xs).length : Int)⟩ i)
      = some (specDeleteAt i.toNat (x :: xs)) := by
  by_cases hi : i = 1
  · subst hi
    simp [LinkedList.Delete, LinkedList.Print, printLoop_eq, specDeleteAt]
  · have h2i : 2 ≤ i := by omega
    have hn : (i - 2).toNat + 1 < (x :: xs).length := by
      simp only [List.length_cons] at h2 ⊢
      omega
    have hsucc : (i - 2).toNat + 1 = i.toNat - 1 := by omega
    have hsucc2 : (i - 2).toNat + 2 = i.toNat := by omega
    simp [LinkedList.Delete, hi, deleteAfter_eq _ _ hn, LinkedList.Print,
      printLoop_eq, specDeleteAt, hsucc, hsucc2]

/-- Witness for C6 at the list `[1,9,2,3]`, `i = 2`: the traversal
becomes `[1,2,3]`, the example of the spec. -/
theorem C6_delete_traversal_witness :
    (1 ≤ (2 : Int)) ∧ ((2 : Int) ≤ (((1 : Int) :: [9, 2, 3]).length : Int)) ∧
    Option.map LinkedList.Print
        (LinkedList.Delete ⟨(1 : Int) :: [9, 2, 3], (((1 : Int) :: [9, 2, 3]).length : Int)⟩ 2)
      = some (specDeleteAt (2 : Int).toNat ((1 : Int) :: [9, 2, 3])) :=
  ⟨by decide, by decide, C6_delete_traversal 1 [9, 2, 3] 2 (by decide) (by decide)⟩

/-- C7: `Reverse` is an involution: calling it twice restores the original
state (in particular the original traversal sequence), and reversing the
empty list is a no-op that leaves the list empty. -/
theorem C7_reverse_involution (l : LinkedList) :
    l.Reverse.Reverse = l ∧ LinkedList.empty.Reverse = LinkedList.empty := by
  constructor
  · cases l with
    | mk h n => simp [LinkedList.Reverse, reverseLoop_eq]
  · rfl

/-- C8: `InsertFront` always succeeds (it is total), increments `length` by
exactly one, and the traversal afterwards yields the new value first
followed by the prior traversal unchanged. -/
theorem C8_insertFront (l : LinkedList) (v : Int) :
    (l.InsertFront v).GetLength = l.GetLength + 1 ∧
    (l.InsertFront v).Print = v :: l.Print := by
  constructor
  · rfl
  · simp [LinkedList.InsertFront, LinkedList.Print, printLoop_eq]

/-- C9: the iterative traversal `Print` and the recursive traversal
`PrintRecursion` produce identical output, namely the contained values in
order from first to last; both are embedded as read-only functions of the
chain, so neither mutates the structure. -/
theorem C9_print_styles_agree (l : LinkedList) :
    l.Print = l.PrintRecursion ∧ l.Print = l.head := by
  constructor
  · simp [LinkedList.Print, printLoop_eq, LinkedList.PrintRecursion, startRecursionPrint_eq]
  · simp [LinkedList.Print, printLoop_eq]

/-- C10: `Reverse` leaves the `length` field unchanged and preserves the
multiset of stored values; it only rewires the successor links. -/
theorem C10_reverse_frame (l : LinkedList) :
    l.Reverse.GetLength = l.GetLength ∧
    (l.Reverse.head : Multiset Int) = (l.head : Multiset Int) := by
  constructor
  · rfl
  · simp [LinkedList.Reverse, reverseLoop_eq]
